import Mathlib

/-!
Shallow embedding of the calculation engine of the ERP attendance repository
(src/calculations.js).  JS numbers on the inputs the engine handles are
modelled by the rationals; the JS Infinity sentinel that the projection
functions can produce is modelled by the value none of an Option, and the
JS NaN that arises when an undefined field is summed is likewise modelled
by none.  Object key/value mappings are modelled as association lists in
key-insertion order, which is the order a JS for..of over Object.keys walks.
-/

/-- The two attendance accounting modes of the engine (field attendanceMode,
strings "ERP" and "TCBR_CORRECTED" in the source). -/
inductive AttendanceMode : Type
  | erp
  | tcbrCorrected
deriving DecidableEq, Repr

/-- The three status strings produced by getStatus. -/
inductive Status : Type
  | safe
  | borderline
  | critical
deriving DecidableEq, Repr

/-- One LTPS component record: raw attended, conducted, and TCBR
(carry-forward) counts.  Constructor argument order: attended, conducted,
tcbr. -/
structure ComponentRecord : Type where
  attended : ℚ
  conducted : ℚ
  tcbr : ℚ
deriving DecidableEq, Repr

/-- Result of simulateMissNextClass. -/
structure SimMiss : Type where
  currentPercentage : ℚ
  newPercentage : ℚ
  percentageDrop : ℚ
  wouldFallBelowThreshold : Bool
  isAlreadyBelowThreshold : Bool
deriving DecidableEq, Repr

/-- Per-component entry of componentData in calculateSubjectSimulation.
classesNeeded is an Option because classesNeededToReachThreshold can yield
the JS Infinity sentinel (modelled none). -/
structure ComponentData : Type where
  percentage : ℚ
  classesNeeded : Option ℚ
  canSkip : ℚ
  status : Status
  nextClassSimulation : SimMiss
  conducted : ℚ
  attended : ℚ
  effectiveAttended : ℚ
  tcbr : ℚ
deriving DecidableEq, Repr

/-- Result object of calculateSubjectSimulation.  The early return for an
empty component mapping carries only status, classesNeeded and canSkip; the
fields it does not carry are modelled none there.  Conversely the full
result carries no classesNeeded key, so classesNeeded is none in that case. -/
structure SubjectSim : Type where
  percentage : Option ℚ
  status : Status
  dangerScore : Option ℚ
  componentData : List (String × ComponentData)
  weakestComponent : Option String
  weakestPercentage : Option ℚ
  totalClassesNeeded : Option ℚ
  classesNeeded : Option ℚ
  canSkip : ℚ
deriving DecidableEq, Repr

/-- One subject of the raw scraped data. -/
structure SubjectRecord : Type where
  courseCode : String
  courseName : String
  components : List (String × ComponentRecord)
deriving DecidableEq, Repr

/-- The raw grouped data handed to processAllSubjects. -/
structure RawData : Type where
  subjects : List (String × SubjectRecord)
deriving DecidableEq, Repr

/-- One element of the list produced by processAllSubjects: the subject
echo fields, the component totals, and the spread fields of the
calculateSubjectSimulation result. -/
structure ProcessedSubject : Type where
  courseCode : String
  courseName : String
  components : List (String × ComponentRecord)
  totalConducted : ℚ
  totalAttended : ℚ
  totalEffectiveAttended : ℚ
  totalAbsent : ℚ
  percentage : Option ℚ
  status : Status
  dangerScore : Option ℚ
  componentData : List (String × ComponentData)
  weakestComponent : Option String
  weakestPercentage : Option ℚ
  totalClassesNeeded : Option ℚ
  classesNeeded : Option ℚ
  canSkip : ℚ
deriving DecidableEq, Repr

/-- Result of calculateAggregateStats.  averageAttendance is an Option
because summing the undefined percentage of an empty-component subject
yields NaN in JS (modelled none). -/
structure AggregateStats : Type where
  totalSubjects : ℕ
  averageAttendance : Option ℚ
  safeCount : ℕ
  borderlineCount : ℕ
  criticalCount : ℕ
  mostAtRisk : Option ProcessedSubject
deriving DecidableEq, Repr

/-- setMode: accepts exactly "ERP" or "TCBR_CORRECTED"; anything else
falls back to ERP. -/
def setMode (mode : String) : AttendanceMode :=
  if mode = "TCBR_CORRECTED" then AttendanceMode.tcbrCorrected
  else AttendanceMode.erp

/-- getEffectiveAttended: attended + tcbr in TCBR_CORRECTED mode, raw
attended otherwise.  (The source guards tcbr with `tcbr || 0`, which is the
identity on numeric tcbr values and is therefore dropped here.) -/
def getEffectiveAttended (mode : AttendanceMode) (attended tcbr : ℚ) : ℚ :=
  match mode with
  | AttendanceMode.tcbrCorrected => attended + tcbr
  | AttendanceMode.erp => attended

/-- calculateComponentPercentage: 100 when no class was conducted, else
effectiveAttended / conducted * 100 clamped into [0, 100]. -/
def calculateComponentPercentage (mode : AttendanceMode) (attended conducted tcbr : ℚ) : ℚ :=
  if conducted ≤ 0 then 100
  else
    let effectiveAttended := getEffectiveAttended mode attended tcbr
    let percentage := effectiveAttended / conducted * 100
    if percentage < 0 then 0
    else if percentage > 100 then 100
    else percentage

/-- The accumulation loop of calculateSubjectPercentage: running
totalPercentage and validComponents over the component list. -/
def subjectPercentageLoop (mode : AttendanceMode) :
    List (String × ComponentRecord) → ℚ → ℕ → ℚ × ℕ
  | [], total, valid => (total, valid)
  | (_, comp) :: rest, total, valid =>
    if comp.conducted > 0 then
      subjectPercentageLoop mode rest
        (total + calculateComponentPercentage mode comp.attended comp.conducted comp.tcbr)
        (valid + 1)
    else
      subjectPercentageLoop mode rest total valid

/-- calculateSubjectPercentage: 0 for an empty mapping, 100 when no
component has conducted > 0, else the unweighted mean of the percentages of
the components with conducted > 0. -/
def calculateSubjectPercentage (mode : AttendanceMode)
    (components : List (String × ComponentRecord)) : ℚ :=
  match components with
  | [] => 0
  | x :: rest =>
    let r := subjectPercentageLoop mode (x :: rest) 0 0
    if r.2 = 0 then 100 else r.1 / (r.2 : ℚ)

/-- getStatus: safe / borderline / critical against threshold with a fixed
5-point buffer. -/
def getStatus (percentage threshold : ℚ) : Status :=
  if percentage ≥ threshold + 5 then Status.safe
  else if percentage ≥ threshold then Status.borderline
  else Status.critical

/-- calculateDangerScore: margin-based above threshold, 50 + deficit
below. -/
def calculateDangerScore (percentage threshold : ℚ) : ℚ :=
  if percentage ≥ threshold then max 0 (threshold + 10 - percentage)
  else 50 + (threshold - percentage)

/-- classesNeededToReachThreshold.  none models the JS Infinity sentinel. -/
def classesNeededToReachThreshold (mode : AttendanceMode)
    (attended conducted threshold tcbr : ℚ) : Option ℚ :=
  let effectiveAttended := getEffectiveAttended mode attended tcbr
  let currentPercentage := calculateComponentPercentage mode attended conducted tcbr
  if currentPercentage ≥ threshold then some 0
  else if threshold ≥ 100 then
    if effectiveAttended < conducted then none else some 0
  else
    let thresholdDecimal := threshold / 100
    let numerator := thresholdDecimal * conducted - effectiveAttended
    let denominator := 1 - thresholdDecimal
    if denominator ≤ 0 then none
    else some (max 0 ((⌈numerator / denominator⌉ : ℤ) : ℚ))

/-- classesCanSkip: 0 below threshold, capped 100 at threshold ≤ 0, else
the floored solution of the skip inequality, floored at 0 and capped at
100. -/
def classesCanSkip (mode : AttendanceMode)
    (attended conducted threshold tcbr : ℚ) : ℚ :=
  let effectiveAttended := getEffectiveAttended mode attended tcbr
  let currentPercentage := calculateComponentPercentage mode attended conducted tcbr
  if currentPercentage < threshold then 0
  else if threshold ≤ 0 then 100
  else
    let thresholdDecimal := threshold / 100
    let numerator := effectiveAttended - thresholdDecimal * conducted
    let denominator := thresholdDecimal
    if denominator ≤ 0 then 100
    else
      let canSkip : ℚ := ((⌊numerator / denominator⌋ : ℤ) : ℚ)
      if canSkip > 100 then 100 else max 0 canSkip

/-- simulateMissNextClass: recompute the percentage with conducted + 1 and
attended unchanged. -/
def simulateMissNextClass (mode : AttendanceMode)
    (attended conducted threshold tcbr : ℚ) : SimMiss :=
  let currentPercentage := calculateComponentPercentage mode attended conducted tcbr
  let newConducted := conducted + 1
  let newPercentage := calculateComponentPercentage mode attended newConducted tcbr
  { currentPercentage := currentPercentage
    newPercentage := newPercentage
    percentageDrop := currentPercentage - newPercentage
    wouldFallBelowThreshold :=
      decide (currentPercentage ≥ threshold) && decide (newPercentage < threshold)
    isAlreadyBelowThreshold := decide (currentPercentage < threshold) }

/-- The component loop of calculateSubjectSimulation.  State: accumulated
componentData (in iteration order), weakestComponent, weakestPercentage,
the totalClassesNeeded accumulator (none models the JS Infinity that
arises from adding an Infinity compNeeded), and the minCanSkip accumulator
(none models its JS Infinity initial value). -/
def subjectSimLoop (mode : AttendanceMode) (threshold : ℚ) :
    List (String × ComponentRecord) →
    List (String × ComponentData) → Option String → ℚ → Option ℚ → Option ℚ →
    List (String × ComponentData) × Option String × ℚ × Option ℚ × Option ℚ
  | [], cd, wc, wp, tot, ms => (cd, wc, wp, tot, ms)
  | (ty, comp) :: rest, cd, wc, wp, tot, ms =>
    let tcbr := comp.tcbr
    let compPercentage := calculateComponentPercentage mode comp.attended comp.conducted tcbr
    let compNeeded := classesNeededToReachThreshold mode comp.attended comp.conducted threshold tcbr
    let compCanSkip := classesCanSkip mode comp.attended comp.conducted threshold tcbr
    let entry : ComponentData :=
      { percentage := compPercentage
        classesNeeded := compNeeded
        canSkip := compCanSkip
        status := getStatus compPercentage threshold
        nextClassSimulation := simulateMissNextClass mode comp.attended comp.conducted threshold tcbr
        conducted := comp.conducted
        attended := comp.attended
        effectiveAttended := getEffectiveAttended mode comp.attended tcbr
        tcbr := tcbr }
    let wpwc : ℚ × Option String :=
      if compPercentage < wp then (compPercentage, some ty) else (wp, wc)
    let tot' : Option ℚ :=
      match compNeeded with
      | none => none
      | some q => if q > 0 then (match tot with | none => none | some s => some (s + q)) else tot
    let ms' : Option ℚ :=
      match ms with
      | none => some compCanSkip
      | some m => if compCanSkip < m then some compCanSkip else some m
    subjectSimLoop mode threshold rest (cd ++ [(ty, entry)]) wpwc.2 wpwc.1 tot' ms'

/-- calculateSubjectSimulation.  The empty mapping takes the early return
(status safe, classesNeeded 0, canSkip 0, no other keys); otherwise the
full result with totalClassesNeeded capped at 300 and canSkip the minimum
per-component skip value capped at 100 (0 if the minCanSkip accumulator is
still at its Infinity initial value, which requires an empty loop). -/
def calculateSubjectSimulation (mode : AttendanceMode)
    (components : List (String × ComponentRecord)) (threshold : ℚ) : SubjectSim :=
  match components with
  | [] =>
    { percentage := none
      status := Status.safe
      dangerScore := none
      componentData := []
      weakestComponent := none
      weakestPercentage := none
      totalClassesNeeded := none
      classesNeeded := some 0
      canSkip := 0 }
  | x :: rest =>
    let currentPercentage := calculateSubjectPercentage mode (x :: rest)
    let r := subjectSimLoop mode threshold (x :: rest) [] none 100 (some 0) none
    { percentage := some currentPercentage
      status := getStatus currentPercentage threshold
      dangerScore := some (calculateDangerScore currentPercentage threshold)
      componentData := r.1
      weakestComponent := r.2.1
      weakestPercentage := some r.2.2.1
      totalClassesNeeded := some (match r.2.2.2.1 with | none => 300 | some q => min q 300)
      classesNeeded := none
      canSkip := match r.2.2.2.2 with | none => 0 | some q => min q 100 }

/-- The totals loop of processAllSubjects: sums of conducted, attended and
effective attended over the components of one subject.  (Written as a
right fold; rational addition is commutative and associative, so it agrees
with the left-to-right accumulation of the source.) -/
def subjectTotalsLoop (mode : AttendanceMode) :
    List (String × ComponentRecord) → ℚ × ℚ × ℚ
  | [] => (0, 0, 0)
  | (_, comp) :: rest =>
    let r := subjectTotalsLoop mode rest
    (r.1 + comp.conducted, r.2.1 + comp.attended,
      r.2.2 + getEffectiveAttended mode comp.attended comp.tcbr)

/-- The body of the processAllSubjects loop for one subject. -/
def processOne (mode : AttendanceMode) (threshold : ℚ) (subject : SubjectRecord) :
    ProcessedSubject :=
  let s := calculateSubjectSimulation mode subject.components threshold
  let t := subjectTotalsLoop mode subject.components
  { courseCode := subject.courseCode
    courseName := subject.courseName
    components := subject.components
    totalConducted := t.1
    totalAttended := t.2.1
    totalEffectiveAttended := t.2.2
    totalAbsent := t.1 - t.2.1
    percentage := s.percentage
    status := s.status
    dangerScore := s.dangerScore
    componentData := s.componentData
    weakestComponent := s.weakestComponent
    weakestPercentage := s.weakestPercentage
    totalClassesNeeded := s.totalClassesNeeded
    classesNeeded := s.classesNeeded
    canSkip := s.canSkip }

/-- processAllSubjects: an absent container yields the empty list, else
one ProcessedSubject per subject in key order. -/
def processAllSubjects (mode : AttendanceMode) (rawData : Option RawData)
    (threshold : ℚ) : List ProcessedSubject :=
  match rawData with
  | none => []
  | some rd => rd.subjects.map (fun s => processOne mode threshold s.2)

/-- JS subtraction of two possibly-undefined numbers as used by the sort
comparators; a NaN comparator result is treated as 0 by Array.prototype.sort. -/
def jsSub (x y : Option ℚ) : ℚ :=
  match x, y with
  | some a, some b => a - b
  | _, _ => 0

/-- Stable insertion into a sorted list: x goes before the first element y
with le x y. -/
def insertSorted {α : Type} (le : α → α → Bool) (x : α) : List α → List α
  | [] => [x]
  | y :: ys => if le x y then x :: y :: ys else y :: insertSorted le x ys

/-- Stable sort by a JS-style numeric comparator (Array.prototype.sort is
stable). -/
def jsSort {α : Type} (cmp : α → α → ℚ) : List α → List α
  | [] => []
  | x :: xs => insertSorted (fun a b => decide (cmp a b ≤ 0)) x (jsSort cmp xs)

/-- Comparator for sortBy = danger: b.dangerScore - a.dangerScore. -/
def compareDanger (a b : ProcessedSubject) : ℚ :=
  jsSub b.dangerScore a.dangerScore

/-- Comparator for sortBy = name: localeCompare modelled as code-point
string order. -/
def compareName (a b : ProcessedSubject) : ℚ :=
  if a.courseName < b.courseName then -1
  else if b.courseName < a.courseName then 1
  else 0

/-- Comparator for sortBy = percentage: a.percentage - b.percentage. -/
def comparePercentage (a b : ProcessedSubject) : ℚ :=
  jsSub a.percentage b.percentage

/-- A JS heap of subject arrays: references are indices into the store. -/
abbrev Store : Type := List (List ProcessedSubject)

/-- sortSubjects over the store model: `[...subjects]` allocates a fresh
array holding a copy of the input, `.sort` mutates that fresh array in
place, and the fresh reference is returned.  Result: (store after the
call, returned reference). -/
def sortSubjects (store : Store) (subjects : ℕ) (sortBy : String) : Store × ℕ :=
  let copy := store.getD subjects []
  let sortedRef := store.length
  let store1 := store ++ [copy]
  let sortedList :=
    match sortBy with
    | "danger" => jsSort compareDanger copy
    | "name" => jsSort compareName copy
    | "percentage" => jsSort comparePercentage copy
    | _ => jsSort compareDanger copy
  (store1.set sortedRef sortedList, sortedRef)

/-- The accumulation loop of calculateAggregateStats.  total is an Option:
adding the undefined percentage of an empty-component subject yields JS
NaN (none), which then absorbs every further addition.  The comparison
subject.percentage < lowestPercentage is false when percentage is
undefined, so lowest/most are updated only on defined percentages. -/
def aggLoop :
    List ProcessedSubject → Option ℚ → ℕ → ℕ → ℕ → ℚ → Option ProcessedSubject →
    Option ℚ × ℕ × ℕ × ℕ × ℚ × Option ProcessedSubject
  | [], total, sc, bc, cc, lowest, most => (total, sc, bc, cc, lowest, most)
  | s :: rest, total, sc, bc, cc, lowest, most =>
    let total' : Option ℚ :=
      match total, s.percentage with
      | some t, some p => some (t + p)
      | _, _ => none
    let counts : ℕ × ℕ × ℕ :=
      match s.status with
      | Status.safe => (sc + 1, bc, cc)
      | Status.borderline => (sc, bc + 1, cc)
      | Status.critical => (sc, bc, cc + 1)
    let lm : ℚ × Option ProcessedSubject :=
      match s.percentage with
      | some p => if p < lowest then (p, some s) else (lowest, most)
      | none => (lowest, most)
    aggLoop rest total' counts.1 counts.2.1 counts.2.2 lm.1 lm.2

/-- calculateAggregateStats: the zero-subject early return, else one pass
accumulating total percentage, status counts and the lowest-percentage
subject (strict comparison against an initial lowest of 100). -/
def calculateAggregateStats (subjects : List ProcessedSubject) (threshold : ℚ) :
    AggregateStats :=
  match subjects with
  | [] =>
    { totalSubjects := 0
      averageAttendance := some 0
      safeCount := 0
      borderlineCount := 0
      criticalCount := 0
      mostAtRisk := none }
  | x :: rest =>
    let r := aggLoop (x :: rest) (some 0) 0 0 0 100 none
    { totalSubjects := (x :: rest).length
      averageAttendance := r.1.map (fun t => t / ((x :: rest).length : ℚ))
      safeCount := r.2.1
      borderlineCount := r.2.2.1
      criticalCount := r.2.2.2.1
      mostAtRisk := r.2.2.2.2.2 }

/-- The lowest/most accumulator of aggLoop in isolation: the running
lowest percentage and lowest-percentage subject over a subject list. -/
def mostAux : List ProcessedSubject → ℚ → Option ProcessedSubject → Option ProcessedSubject
  | [], _, most => most
  | s :: rest, lowest, most =>
    match s.percentage with
    | some p => if p < lowest then mostAux rest p (some s) else mostAux rest lowest most
    | none => mostAux rest lowest most

/-- The running minimum of the defined percentages of a subject list,
started from an initial lowest value. -/
def minPctAux : List ProcessedSubject → ℚ → ℚ
  | [], lowest => lowest
  | s :: rest, lowest =>
    match s.percentage with
    | some p => minPctAux rest (min lowest p)
    | none => minPctAux rest lowest

/-- The minCanSkip accumulator of subjectSimLoop in isolation (none is the
JS Infinity initial value). -/
def minSkipAux (mode : AttendanceMode) (threshold : ℚ) :
    List (String × ComponentRecord) → Option ℚ → Option ℚ
  | [], ms => ms
  | (_, comp) :: rest, ms =>
    let s := classesCanSkip mode comp.attended comp.conducted threshold comp.tcbr
    minSkipAux mode threshold rest
      (match ms with
       | none => some s
       | some m => if s < m then some s else some m)

/-- The per-component skip capacities of a subject, in component order. -/
def componentSkips (mode : AttendanceMode) (threshold : ℚ)
    (components : List (String × ComponentRecord)) : List ℚ :=
  components.map (fun x => classesCanSkip mode x.2.attended x.2.conducted threshold x.2.tcbr)

/-- Modelled from the spec wording of §4.9: the minimum POSITIVE
per-component skip capacity of a subject (none when no component has a
positive skip capacity).  This is the quantity the claim about
subject-level canSkip refers to; the engine itself does not compute it. -/
def minPositiveSkip (mode : AttendanceMode) (threshold : ℚ)
    (components : List (String × ComponentRecord)) : Option ℚ :=
  match (componentSkips mode threshold components).filter (fun q => decide (0 < q)) with
  | [] => none
  | x :: xs => some (xs.foldl min x)

/-- Sanity bounds of one componentData entry: its percentage and both
simulation percentages lie in [0, 100], none of its derived quantities
(classesNeeded when finite, canSkip, effectiveAttended, the simulated
percentage drop) is negative. -/
def componentDataSane (d : ComponentData) : Prop :=
  0 ≤ d.percentage ∧ d.percentage ≤ 100 ∧
    (∀ q, d.classesNeeded = some q → 0 ≤ q) ∧
    0 ≤ d.canSkip ∧
    0 ≤ d.effectiveAttended ∧
    0 ≤ d.nextClassSimulation.currentPercentage ∧
    d.nextClassSimulation.currentPercentage ≤ 100 ∧
    0 ≤ d.nextClassSimulation.newPercentage ∧
    d.nextClassSimulation.newPercentage ≤ 100 ∧
    0 ≤ d.nextClassSimulation.percentageDrop

/-- A concrete processed subject sitting at percentage 50, used as a
sample aggregate input. -/
def sampleLowSubject : ProcessedSubject :=
  { courseCode := "CS1"
    courseName := "Course One"
    components := []
    totalConducted := 10
    totalAttended := 5
    totalEffectiveAttended := 5
    totalAbsent := 5
    percentage := some 50
    status := Status.critical
    dangerScore := some 75
    componentData := []
    weakestComponent := none
    weakestPercentage := some 50
    totalClassesNeeded := some 10
    classesNeeded := none
    canSkip := 0 }

/-! ## Helper lemmas -/

theorem effectiveAttended_nonneg (mode : AttendanceMode) (a f : ℚ)
    (ha : 0 ≤ a) (hf : 0 ≤ f) : 0 ≤ getEffectiveAttended mode a f := by
  cases mode <;> simp [getEffectiveAttended] <;> linarith

theorem componentPercentage_bounds (mode : AttendanceMode) (a c f : ℚ) :
    0 ≤ calculateComponentPercentage mode a c f ∧
      calculateComponentPercentage mode a c f ≤ 100 := by
  simp only [calculateComponentPercentage]
  split_ifs <;> constructor <;> linarith

theorem componentPercentage_succ_le (mode : AttendanceMode) (a c f : ℚ)
    (ha : 0 ≤ a) (hf : 0 ≤ f) :
    calculateComponentPercentage mode a (c + 1) f ≤
      calculateComponentPercentage mode a c f := by
  by_cases hc : c ≤ 0
  · have hR : calculateComponentPercentage mode a c f = 100 := by
      simp [calculateComponentPercentage, hc]
    rw [hR]
    exact (componentPercentage_bounds mode a (c + 1) f).2
  · have hc0 : (0 : ℚ) < c := lt_of_not_ge hc
    have hc1 : ¬ c + 1 ≤ 0 := by linarith
    have heff : 0 ≤ getEffectiveAttended mode a f := effectiveAttended_nonneg mode a f ha hf
    have key : getEffectiveAttended mode a f / (c + 1) * 100 ≤
        getEffectiveAttended mode a f / c * 100 := by
      have h1 : getEffectiveAttended mode a f / (c + 1) ≤ getEffectiveAttended mode a f / c := by
        apply div_le_div_of_nonneg_left heff hc0
        linarith
      linarith
    simp only [calculateComponentPercentage, if_neg hc, if_neg hc1]
    split_ifs <;> linarith

theorem subjectPercentageLoop_bounds (mode : AttendanceMode) :
    ∀ (comps : List (String × ComponentRecord)) (total : ℚ) (valid : ℕ),
      0 ≤ total → total ≤ 100 * valid →
      0 ≤ (subjectPercentageLoop mode comps total valid).1 ∧
        (subjectPercentageLoop mode comps total valid).1 ≤
          100 * ((subjectPercentageLoop mode comps total valid).2 : ℚ) := by
  intro comps
  induction comps with
  | nil => intro total valid h0 h1; exact ⟨h0, h1⟩
  | cons x rest ih =>
    intro total valid h0 h1
    obtain ⟨ty, comp⟩ := x
    by_cases hc : comp.conducted > 0
    · have hb := componentPercentage_bounds mode comp.attended comp.conducted comp.tcbr
      simp only [subjectPercentageLoop, if_pos hc]
      apply ih
      · linarith [hb.1]
      · push_cast
        push_cast at h1
        linarith [hb.2]
    · simp only [subjectPercentageLoop, if_neg hc]
      exact ih total valid h0 h1

theorem subjectPercentage_bounds (mode : AttendanceMode)
    (comps : List (String × ComponentRecord)) :
    0 ≤ calculateSubjectPercentage mode comps ∧
      calculateSubjectPercentage mode comps ≤ 100 := by
  cases comps with
  | nil => simp [calculateSubjectPercentage]
  | cons x rest =>
    simp only [calculateSubjectPercentage]
    have hb := subjectPercentageLoop_bounds mode (x :: rest) 0 0 (le_refl 0) (by norm_num)
    by_cases hv : (subjectPercentageLoop mode (x :: rest) 0 0).2 = 0
    · simp [hv]
    · have hv1 : (1 : ℚ) ≤ ((subjectPercentageLoop mode (x :: rest) 0 0).2 : ℚ) := by
        have : 1 ≤ (subjectPercentageLoop mode (x :: rest) 0 0).2 := Nat.one_le_iff_ne_zero.mpr hv
        exact_mod_cast this
      have hvpos : (0 : ℚ) < ((subjectPercentageLoop mode (x :: rest) 0 0).2 : ℚ) := by linarith
      rw [if_neg hv]
      constructor
      · exact div_nonneg hb.1 (le_of_lt hvpos)
      · rw [div_le_iff hvpos]
        linarith [hb.2]

theorem subjectPercentageLoop_no_data (mode : AttendanceMode) :
    ∀ (comps : List (String × ComponentRecord)) (total : ℚ) (valid : ℕ),
      (∀ x ∈ comps, x.2.conducted ≤ 0) →
      subjectPercentageLoop mode comps total valid = (total, valid) := by
  intro comps
  induction comps with
  | nil => intro total valid _; rfl
  | cons x rest ih =>
    intro total valid h
    obtain ⟨ty, comp⟩ := x
    have hc : ¬ comp.conducted > 0 := not_lt.mpr (h (ty, comp) (List.mem_cons_self _ _))
    simp only [subjectPercentageLoop, if_neg hc]
    exact ih total valid (fun y hy => h y (List.mem_cons_of_mem _ hy))

theorem subjectSimLoop_minSkip (mode : AttendanceMode) (t : ℚ) :
    ∀ (comps : List (String × ComponentRecord))
      (cd : List (String × ComponentData)) (wc : Option String) (wp : ℚ)
      (tot ms : Option ℚ),
      (subjectSimLoop mode t comps cd wc wp tot ms).2.2.2.2 = minSkipAux mode t comps ms := by
  intro comps
  induction comps with
  | nil => intros; rfl
  | cons x rest ih =>
    intro cd wc wp tot ms
    obtain ⟨ty, comp⟩ := x
    simp only [subjectSimLoop, minSkipAux]
    exact ih _ _ _ _ _

theorem minSkipAux_some (mode : AttendanceMode) (t : ℚ) :
    ∀ (comps : List (String × ComponentRecord)) (m : ℚ),
      minSkipAux mode t comps (some m) =
        some ((componentSkips mode t comps).foldl min m) := by
  intro comps
  induction comps with
  | nil => intro m; rfl
  | cons x rest ih =>
    intro m
    obtain ⟨ty, comp⟩ := x
    have hstep :
        (if classesCanSkip mode comp.attended comp.conducted t comp.tcbr < m then
            some (classesCanSkip mode comp.attended comp.conducted t comp.tcbr)
          else some m) =
          some (min m (classesCanSkip mode comp.attended comp.conducted t comp.tcbr)) := by
      by_cases h : classesCanSkip mode comp.attended comp.conducted t comp.tcbr < m
      · rw [if_pos h, min_eq_right (le_of_lt h)]
      · rw [if_neg h, min_eq_left (le_of_not_lt h)]
    simp only [minSkipAux, componentSkips, List.map_cons, List.foldl_cons, hstep]
    exact ih _

theorem foldl_min_comm (l : List ℚ) :
    ∀ (a b : ℚ), min (l.foldl min a) b = l.foldl min (min b a) := by
  induction l with
  | nil => intro a b; exact min_comm a b
  | cons x xs ih =>
    intro a b
    simp only [List.foldl_cons]
    rw [ih (min a x) b]
    congr 1
    exact (min_assoc b a x).symm

theorem aggLoop_most :
    ∀ (l : List ProcessedSubject) (total : Option ℚ) (sc bc cc : ℕ) (lowest : ℚ)
      (most : Option ProcessedSubject),
      (aggLoop l total sc bc cc lowest most).2.2.2.2.2 = mostAux l lowest most := by
  intro l
  induction l with
  | nil => intros; rfl
  | cons s rest ih =>
    intro total sc bc cc lowest most
    simp only [aggLoop, mostAux]
    cases hp : s.percentage with
    | none => exact ih _ _ _ _ _ _
    | some p =>
      by_cases h : p < lowest
      · simp only [if_pos h]; exact ih _ _ _ _ _ _
      · simp only [if_neg h]; exact ih _ _ _ _ _ _

theorem minPctAux_le : ∀ (l : List ProcessedSubject) (x : ℚ), minPctAux l x ≤ x := by
  intro l
  induction l with
  | nil => intro x; exact le_refl x
  | cons s rest ih =>
    intro x
    simp only [minPctAux]
    cases s.percentage with
    | none => exact ih x
    | some p => exact le_trans (ih (min x p)) (min_le_left x p)


theorem minPctAux_lt_iff :
    ∀ (l : List ProcessedSubject) (x : ℚ),
      minPctAux l x < x ↔ ∃ s ∈ l, ∃ p, s.percentage = some p ∧ p < x := by
  intro l
  induction l with
  | nil => intro x; simp [minPctAux]
  | cons s rest ih =>
    intro x
    cases hp : s.percentage with
    | none =>
      simp only [minPctAux, hp]
      rw [ih x]
      constructor
      · rintro ⟨t, ht, q, hq, hql⟩
        exact ⟨t, List.mem_cons_of_mem _ ht, q, hq, hql⟩
      · rintro ⟨t, ht, q, hq, hql⟩
        rcases List.mem_cons.mp ht with h1 | h1
        · subst h1; rw [hp] at hq; cases hq
        · exact ⟨t, h1, q, hq, hql⟩
    | some p =>
      simp only [minPctAux, hp]
      by_cases hpx : p < x
      · constructor
        · intro _
          exact ⟨s, List.mem_cons_self _ _, p, hp, hpx⟩
        · intro _
          calc minPctAux rest (min x p) ≤ min x p := minPctAux_le rest (min x p)
            _ ≤ p := min_le_right x p
            _ < x := hpx
      · have hmin : min x p = x := min_eq_left (le_of_not_lt hpx)
        rw [hmin, ih x]
        constructor
        · rintro ⟨t, ht, q, hq, hql⟩
          exact ⟨t, List.mem_cons_of_mem _ ht, q, hq, hql⟩
        · rintro ⟨t, ht, q, hq, hql⟩
          rcases List.mem_cons.mp ht with h1 | h1
          · subst h1; rw [hp] at hq
            cases hq
            exact absurd hql hpx
          · exact ⟨t, h1, q, hq, hql⟩

theorem mostAux_spec :
    ∀ (l : List ProcessedSubject) (lowest : ℚ) (most : Option ProcessedSubject),
      mostAux l lowest most =
        if minPctAux l lowest < lowest then
          l.find? (fun s => decide (s.percentage = some (minPctAux l lowest)))
        else most := by
  intro l
  induction l with
  | nil => intro lowest most; simp [mostAux, minPctAux]
  | cons s rest ih =>
    intro lowest most
    cases hp : s.percentage with
    | none =>
      simp only [mostAux, minPctAux, hp]
      rw [ih lowest most]
      by_cases hcond : minPctAux rest lowest < lowest
      · rw [if_pos hcond, if_pos hcond, List.find?_cons_of_neg]
        simp [hp]
      · rw [if_neg hcond, if_neg hcond]
    | some p =>
      simp only [mostAux, minPctAux, hp]
      by_cases hpl : p < lowest
      · rw [if_pos hpl, ih p (some s)]
        have hm : min lowest p = p := min_eq_right (le_of_lt hpl)
        rw [hm]
        have hle : minPctAux rest p ≤ p := minPctAux_le rest p
        have hcond2 : minPctAux rest p < lowest := lt_of_le_of_lt hle hpl
        rw [if_pos hcond2]
        by_cases hlt : minPctAux rest p < p
        · rw [if_pos hlt, List.find?_cons_of_neg]
          simp only [hp, decide_eq_true_eq]
          intro hcontra
          have hpe : p = minPctAux rest p := by injection hcontra
          rw [← hpe] at hlt
          exact lt_irrefl p hlt
        · have heq : minPctAux rest p = p := le_antisymm hle (le_of_not_lt hlt)
          rw [if_neg hlt, List.find?_cons_of_pos]
          simp [hp, heq]
      · rw [if_neg hpl, ih lowest most]
        have hm : min lowest p = lowest := min_eq_left (le_of_not_lt hpl)
        rw [hm]
        by_cases hcond : minPctAux rest lowest < lowest
        · rw [if_pos hcond, if_pos hcond, List.find?_cons_of_neg]
          simp only [hp, decide_eq_true_eq]
          intro hcontra
          have hpe : p = minPctAux rest lowest := by injection hcontra
          have h1 : minPctAux rest lowest < p := lt_of_lt_of_le hcond (le_of_not_lt hpl)
          rw [← hpe] at h1
          exact lt_irrefl p h1
        · rw [if_neg hcond, if_neg hcond]

theorem minPctAux_attained :
    ∀ (l : List ProcessedSubject) (x : ℚ),
      minPctAux l x < x → ∃ s ∈ l, s.percentage = some (minPctAux l x) := by
  intro l
  induction l with
  | nil => intro x h; exact absurd h (lt_irrefl x)
  | cons s rest ih =>
    intro x
    cases hp : s.percentage with
    | none =>
      simp only [minPctAux, hp]
      intro h
      obtain ⟨t, ht, hq⟩ := ih x h
      exact ⟨t, List.mem_cons_of_mem _ ht, hq⟩
    | some p =>
      simp only [minPctAux, hp]
      intro h
      by_cases hlt : minPctAux rest (min x p) < min x p
      · obtain ⟨t, ht, hq⟩ := ih (min x p) hlt
        exact ⟨t, List.mem_cons_of_mem _ ht, hq⟩
      · have heq : minPctAux rest (min x p) = min x p :=
          le_antisymm (minPctAux_le rest (min x p)) (le_of_not_lt hlt)
        have hpx : min x p = p := by
          rcases min_cases x p with ⟨h1, h2⟩ | ⟨h1, h2⟩
          · rw [heq, h1] at h; exact absurd h (lt_irrefl x)
          · rw [h1]
        exact ⟨s, List.mem_cons_self _ _, by rw [hp, heq, hpx]⟩

theorem aggLoop_total_bounds :
    ∀ (l : List ProcessedSubject) (T : ℚ) (sc bc cc : ℕ) (lowest : ℚ)
      (most : Option ProcessedSubject),
      (∀ s ∈ l, ∃ q, s.percentage = some q ∧ 0 ≤ q ∧ q ≤ 100) →
      ∃ T', (aggLoop l (some T) sc bc cc lowest most).1 = some T' ∧
        T ≤ T' ∧ T' ≤ T + 100 * l.length := by
  intro l
  induction l with
  | nil =>
    intro T sc bc cc lowest most _
    exact ⟨T, rfl, le_refl T, by simp⟩
  | cons s rest ih =>
    intro T sc bc cc lowest most h
    obtain ⟨q, hq, hq0, hq100⟩ := h s (List.mem_cons_self _ _)
    have hrest : ∀ t ∈ rest, ∃ p, t.percentage = some p ∧ 0 ≤ p ∧ p ≤ 100 :=
      fun t ht => h t (List.mem_cons_of_mem _ ht)
    simp only [aggLoop, hq]
    obtain ⟨T', hT', hle, hub⟩ := ih (T + q) _ _ _ _ _ hrest
    refine ⟨T', ?_, by linarith, ?_⟩
    · rw [← hT']
    · simp only [List.length_cons]
      push_cast
      push_cast at hub
      linarith

theorem subjectTotalsLoop_absent_nonneg (mode : AttendanceMode) :
    ∀ (comps : List (String × ComponentRecord)),
      (∀ x ∈ comps, x.2.attended ≤ x.2.conducted) →
      (subjectTotalsLoop mode comps).2.1 ≤ (subjectTotalsLoop mode comps).1 := by
  intro comps
  induction comps with
  | nil => intro _; exact le_refl 0
  | cons x rest ih =>
    intro h
    obtain ⟨ty, comp⟩ := x
    have h1 : comp.attended ≤ comp.conducted := h (ty, comp) (List.mem_cons_self _ _)
    have h2 := ih (fun y hy => h y (List.mem_cons_of_mem _ hy))
    simp only [subjectTotalsLoop]
    linarith

theorem dangerScore_nonneg (p t : ℚ) : 0 ≤ calculateDangerScore p t := by
  simp only [calculateDangerScore]
  split_ifs with h
  · exact le_max_left 0 _
  · have : p < t := lt_of_not_ge h
    linarith

theorem classesCanSkip_nonneg (mode : AttendanceMode) (a c t f : ℚ) :
    0 ≤ classesCanSkip mode a c t f := by
  simp only [classesCanSkip]
  split_ifs <;> first | norm_num | exact le_max_left 0 _

theorem classesNeeded_some_nonneg (mode : AttendanceMode) (a c t f : ℚ) :
    ∀ q, classesNeededToReachThreshold mode a c t f = some q → 0 ≤ q := by
  intro q h
  simp only [classesNeededToReachThreshold] at h
  split_ifs at h <;>
    first
      | exact Option.noConfusion h
      | (injection h with h; subst h; first | norm_num | exact le_max_left 0 _)

theorem componentDataSane_new (mode : AttendanceMode) (t : ℚ) (comp : ComponentRecord)
    (ha : 0 ≤ comp.attended) (hf : 0 ≤ comp.tcbr) :
    componentDataSane
      { percentage := calculateComponentPercentage mode comp.attended comp.conducted comp.tcbr
        classesNeeded := classesNeededToReachThreshold mode comp.attended comp.conducted t comp.tcbr
        canSkip := classesCanSkip mode comp.attended comp.conducted t comp.tcbr
        status := getStatus (calculateComponentPercentage mode comp.attended comp.conducted comp.tcbr) t
        nextClassSimulation := simulateMissNextClass mode comp.attended comp.conducted t comp.tcbr
        conducted := comp.conducted
        attended := comp.attended
        effectiveAttended := getEffectiveAttended mode comp.attended comp.tcbr
        tcbr := comp.tcbr } := by
  have hb := componentPercentage_bounds mode comp.attended comp.conducted comp.tcbr
  have hb1 := componentPercentage_bounds mode comp.attended (comp.conducted + 1) comp.tcbr
  have hdrop := componentPercentage_succ_le mode comp.attended comp.conducted comp.tcbr ha hf
  unfold componentDataSane simulateMissNextClass
  refine ⟨hb.1, hb.2, classesNeeded_some_nonneg mode comp.attended comp.conducted t comp.tcbr,
    classesCanSkip_nonneg mode comp.attended comp.conducted t comp.tcbr,
    effectiveAttended_nonneg mode comp.attended comp.tcbr ha hf,
    hb.1, hb.2, hb1.1, hb1.2, ?_⟩
  dsimp only
  linarith

theorem subjectSimLoop_componentData_sane (mode : AttendanceMode) (t : ℚ) :
    ∀ (comps : List (String × ComponentRecord))
      (cd : List (String × ComponentData)) (wc : Option String) (wp : ℚ)
      (tot ms : Option ℚ),
      (∀ e ∈ cd, componentDataSane e.2) →
      (∀ x ∈ comps, 0 ≤ x.2.attended ∧ 0 ≤ x.2.tcbr) →
      ∀ e ∈ (subjectSimLoop mode t comps cd wc wp tot ms).1, componentDataSane e.2 := by
  intro comps
  induction comps with
  | nil => intro cd wc wp tot ms hcd _ e he; exact hcd e he
  | cons x rest ih =>
    intro cd wc wp tot ms hcd h e he
    obtain ⟨ty, comp⟩ := x
    have hx := h (ty, comp) (List.mem_cons_self _ _)
    simp only [subjectSimLoop] at he
    refine ih _ _ _ _ _ ?_ (fun y hy => h y (List.mem_cons_of_mem _ hy)) e he
    intro f hf
    rcases List.mem_append.mp hf with h1 | h1
    · exact hcd f h1
    · rcases List.mem_singleton.mp h1 with rfl
      exact componentDataSane_new mode t comp hx.1 hx.2

theorem processOne_fields (mode : AttendanceMode) (t : ℚ) (subject : SubjectRecord)
    (x : String × ComponentRecord) (rest : List (String × ComponentRecord))
    (hc : subject.components = x :: rest) :
    (processOne mode t subject).percentage =
        some (calculateSubjectPercentage mode subject.components) ∧
      (processOne mode t subject).componentData =
        (subjectSimLoop mode t subject.components [] none 100 (some 0) none).1 ∧
      (processOne mode t subject).totalAbsent =
        (subjectTotalsLoop mode subject.components).1 -
          (subjectTotalsLoop mode subject.components).2.1 ∧
      (processOne mode t subject).canSkip =
        (match (subjectSimLoop mode t subject.components [] none 100 (some 0) none).2.2.2.2 with
         | none => (0 : ℚ)
         | some q => min q 100) ∧
      (processOne mode t subject).dangerScore =
        some (calculateDangerScore (calculateSubjectPercentage mode subject.components) t) ∧
      (processOne mode t subject).weakestPercentage =
        some ((subjectSimLoop mode t subject.components [] none 100 (some 0) none).2.2.1) ∧
      (processOne mode t subject).totalClassesNeeded =
        some (match (subjectSimLoop mode t subject.components [] none 100 (some 0) none).2.2.2.1 with
          | none => (300 : ℚ)
          | some q => min q 300) ∧
      (processOne mode t subject).totalConducted =
        (subjectTotalsLoop mode subject.components).1 ∧
      (processOne mode t subject).totalAttended =
        (subjectTotalsLoop mode subject.components).2.1 ∧
      (processOne mode t subject).totalEffectiveAttended =
        (subjectTotalsLoop mode subject.components).2.2 := by
  simp [processOne, calculateSubjectSimulation, hc]

theorem effectiveAttended_zero (mode : AttendanceMode) (a : ℚ) :
    getEffectiveAttended mode a 0 = a := by
  cases mode <;> simp [getEffectiveAttended]

theorem componentPercentage_mode (a c : ℚ) :
    calculateComponentPercentage AttendanceMode.erp a c 0 =
      calculateComponentPercentage AttendanceMode.tcbrCorrected a c 0 := by
  simp [calculateComponentPercentage, getEffectiveAttended]

theorem classesNeeded_mode (a c t : ℚ) :
    classesNeededToReachThreshold AttendanceMode.erp a c t 0 =
      classesNeededToReachThreshold AttendanceMode.tcbrCorrected a c t 0 := by
  simp [classesNeededToReachThreshold, calculateComponentPercentage, getEffectiveAttended]

theorem canSkip_mode (a c t : ℚ) :
    classesCanSkip AttendanceMode.erp a c t 0 =
      classesCanSkip AttendanceMode.tcbrCorrected a c t 0 := by
  simp [classesCanSkip, calculateComponentPercentage, getEffectiveAttended]

theorem simulateMiss_mode (a c t : ℚ) :
    simulateMissNextClass AttendanceMode.erp a c t 0 =
      simulateMissNextClass AttendanceMode.tcbrCorrected a c t 0 := by
  simp [simulateMissNextClass, calculateComponentPercentage, getEffectiveAttended]

theorem subjectPercentageLoop_mode :
    ∀ (comps : List (String × ComponentRecord)),
      (∀ x ∈ comps, x.2.tcbr = 0) →
      ∀ (total : ℚ) (valid : ℕ),
        subjectPercentageLoop AttendanceMode.erp comps total valid =
          subjectPercentageLoop AttendanceMode.tcbrCorrected comps total valid := by
  intro comps
  induction comps with
  | nil => intro _ total valid; rfl
  | cons x rest ih =>
    intro h total valid
    obtain ⟨ty, comp⟩ := x
    have hx : comp.tcbr = 0 := h (ty, comp) (List.mem_cons_self _ _)
    have hrest := fun y hy => h y (List.mem_cons_of_mem _ hy)
    simp only [subjectPercentageLoop, hx, componentPercentage_mode]
    by_cases hc : comp.conducted > 0
    · rw [if_pos hc, if_pos hc, ih hrest]
    · rw [if_neg hc, if_neg hc, ih hrest]

theorem calculateSubjectPercentage_mode
    (comps : List (String × ComponentRecord)) (h : ∀ x ∈ comps, x.2.tcbr = 0) :
    calculateSubjectPercentage AttendanceMode.erp comps =
      calculateSubjectPercentage AttendanceMode.tcbrCorrected comps := by
  cases comps with
  | nil => rfl
  | cons x rest =>
    simp only [calculateSubjectPercentage]
    rw [subjectPercentageLoop_mode (x :: rest) h 0 0]

theorem subjectSimLoop_mode (t : ℚ) :
    ∀ (comps : List (String × ComponentRecord)),
      (∀ x ∈ comps, x.2.tcbr = 0) →
      ∀ (cd : List (String × ComponentData)) (wc : Option String) (wp : ℚ)
        (tot ms : Option ℚ),
        subjectSimLoop AttendanceMode.erp t comps cd wc wp tot ms =
          subjectSimLoop AttendanceMode.tcbrCorrected t comps cd wc wp tot ms := by
  intro comps
  induction comps with
  | nil => intro _ cd wc wp tot ms; rfl
  | cons x rest ih =>
    intro h cd wc wp tot ms
    obtain ⟨ty, comp⟩ := x
    have hx : comp.tcbr = 0 := h (ty, comp) (List.mem_cons_self _ _)
    have hrest := fun y hy => h y (List.mem_cons_of_mem _ hy)
    simp only [subjectSimLoop, hx, componentPercentage_mode, classesNeeded_mode,
      canSkip_mode, simulateMiss_mode, effectiveAttended_zero]
    exact ih hrest _ _ _ _ _

theorem subjectTotalsLoop_mode :
    ∀ (comps : List (String × ComponentRecord)),
      (∀ x ∈ comps, x.2.tcbr = 0) →
      subjectTotalsLoop AttendanceMode.erp comps =
        subjectTotalsLoop AttendanceMode.tcbrCorrected comps := by
  intro comps
  induction comps with
  | nil => intro _; rfl
  | cons x rest ih =>
    intro h
    obtain ⟨ty, comp⟩ := x
    have hx : comp.tcbr = 0 := h (ty, comp) (List.mem_cons_self _ _)
    have hrest := fun y hy => h y (List.mem_cons_of_mem _ hy)
    simp only [subjectTotalsLoop, hx, effectiveAttended_zero, ih hrest]

theorem calculateSubjectSimulation_mode (t : ℚ)
    (comps : List (String × ComponentRecord)) (h : ∀ x ∈ comps, x.2.tcbr = 0) :
    calculateSubjectSimulation AttendanceMode.erp comps t =
      calculateSubjectSimulation AttendanceMode.tcbrCorrected comps t := by
  cases comps with
  | nil => rfl
  | cons x rest =>
    simp only [calculateSubjectSimulation]
    rw [calculateSubjectPercentage_mode (x :: rest) h, subjectSimLoop_mode t (x :: rest) h]

theorem processOne_mode (t : ℚ) (subject : SubjectRecord)
    (h : ∀ x ∈ subject.components, x.2.tcbr = 0) :
    processOne AttendanceMode.erp t subject =
      processOne AttendanceMode.tcbrCorrected t subject := by
  simp only [processOne]
  rw [calculateSubjectSimulation_mode t subject.components h,
    subjectTotalsLoop_mode subject.components h]

theorem processAllSubjects_mode (t : ℚ) (rd : RawData)
    (h : ∀ s ∈ rd.subjects, ∀ x ∈ s.2.components, x.2.tcbr = 0) :
    processAllSubjects AttendanceMode.erp (some rd) t =
      processAllSubjects AttendanceMode.tcbrCorrected (some rd) t := by
  simp only [processAllSubjects]
  apply List.map_congr_left
  intro s hs
  exact processOne_mode t s.2 (h s hs)

/-! ## Claim theorems -/

/-- Claim C1, counterexample: the claim asserts that a subject with an
EMPTY component mapping also gets subject percentage 100, but
calculateSubjectPercentage returns 0 on the empty mapping, and the
calculateSubjectSimulation early return for the empty mapping carries no
percentage at all (modelled none), not 100. -/
theorem subjectPercentage_empty_counterexample :
    calculateSubjectPercentage AttendanceMode.erp [] = 0 ∧
      (0 : ℚ) ≠ 100 ∧
      (calculateSubjectSimulation AttendanceMode.erp [] 75).percentage = none := by
  refine ⟨rfl, by norm_num, rfl⟩

/-- Claim C1, amended: for every subject with a NON-EMPTY component
mapping in which no component has conducted > 0, the subject percentage is
100 and it is echoed as the percentage of the simulation result. -/
theorem subjectPercentage_no_data (mode : AttendanceMode)
    (comps : List (String × ComponentRecord)) (t : ℚ)
    (hne : comps ≠ []) (hall : ∀ x ∈ comps, x.2.conducted ≤ 0) :
    calculateSubjectPercentage mode comps = 100 ∧
      (calculateSubjectSimulation mode comps t).percentage =
        some (100 : ℚ) := by
  have hpct : calculateSubjectPercentage mode comps = 100 := by
    cases comps with
    | nil => exact absurd rfl hne
    | cons x rest =>
      simp only [calculateSubjectPercentage]
      rw [subjectPercentageLoop_no_data mode (x :: rest) 0 0 hall]
      norm_num
  refine ⟨hpct, ?_⟩
  cases comps with
  | nil => exact absurd rfl hne
  | cons x rest =>
    simp only [calculateSubjectSimulation]
    rw [hpct]

/-- Claim C1, witness for the amended theorem at a concrete subject with
one component that has conducted = 0. -/
theorem subjectPercentage_no_data_witness :
    ([("L", (⟨3, 0, 0⟩ : ComponentRecord))] ≠ []) ∧
      calculateSubjectPercentage AttendanceMode.erp [("L", ⟨3, 0, 0⟩)] = 100 ∧
      (calculateSubjectSimulation AttendanceMode.erp [("L", ⟨3, 0, 0⟩)] 75).percentage =
        some (100 : ℚ) := by
  have h := subjectPercentage_no_data AttendanceMode.erp [("L", ⟨3, 0, 0⟩)] 75
    (by simp) (by intro x hx; rcases List.mem_singleton.mp hx with rfl; norm_num)
  exact ⟨by simp, h.1, h.2⟩

/-- Claim C2, counterexample: with components L (0 of 10 attended, skip
capacity 0) and P (10 of 10 attended, skip capacity 3) at threshold 75,
the minimum POSITIVE per-component skip capacity is 3, but the
subject-level canSkip of the engine is 0 (the minimum over ALL components,
zeros included). -/
theorem subjectCanSkip_counterexample :
    minPositiveSkip AttendanceMode.erp 75
        [("L", ⟨0, 10, 0⟩), ("P", ⟨10, 10, 0⟩)] = some 3 ∧
      (calculateSubjectSimulation AttendanceMode.erp
          [("L", ⟨0, 10, 0⟩), ("P", ⟨10, 10, 0⟩)] 75).canSkip = 0 ∧
      (0 : ℚ) ≠ 3 := by
  refine ⟨?_, ?_, by norm_num⟩
  · norm_num [minPositiveSkip, componentSkips, classesCanSkip,
      calculateComponentPercentage, getEffectiveAttended]
  · norm_num [calculateSubjectSimulation, subjectSimLoop, classesCanSkip,
      classesNeededToReachThreshold, simulateMissNextClass,
      calculateComponentPercentage, getEffectiveAttended]

/-- Claim C2, amended: for every subject with a non-empty component
mapping and every threshold, the subject-level canSkip equals the minimum
over ALL components of the per-component skip value (zeros included),
capped at 100 (expressed as a fold of min started at the cap 100); the
per-component skip value is never the unbounded case, so the 0-fallback
for an Infinity minimum is unreachable with a non-empty mapping. -/
theorem subjectCanSkip_min (mode : AttendanceMode)
    (comps : List (String × ComponentRecord)) (t : ℚ) (hne : comps ≠ []) :
    (calculateSubjectSimulation mode comps t).canSkip =
      (componentSkips mode t comps).foldl min 100 := by
  cases comps with
  | nil => exact absurd rfl hne
  | cons x rest =>
    obtain ⟨ty, comp⟩ := x
    simp only [calculateSubjectSimulation]
    rw [subjectSimLoop_minSkip]
    simp only [minSkipAux, componentSkips, List.map_cons, List.foldl_cons]
    rw [minSkipAux_some]
    have h100 : min 100 (classesCanSkip mode comp.attended comp.conducted t comp.tcbr) =
        min (100 : ℚ) (classesCanSkip mode comp.attended comp.conducted t comp.tcbr) := rfl
    calc min ((componentSkips mode t rest).foldl min
            (classesCanSkip mode comp.attended comp.conducted t comp.tcbr)) 100
        = (componentSkips mode t rest).foldl min
            (min 100 (classesCanSkip mode comp.attended comp.conducted t comp.tcbr)) :=
          foldl_min_comm (componentSkips mode t rest) _ 100
      _ = _ := by simp [componentSkips]

/-- Claim C2, witness for the amended theorem at a concrete non-empty
subject. -/
theorem subjectCanSkip_min_witness :
    ([("L", (⟨10, 10, 0⟩ : ComponentRecord))] ≠ []) ∧
      (calculateSubjectSimulation AttendanceMode.erp [("L", ⟨10, 10, 0⟩)] 75).canSkip =
        (componentSkips AttendanceMode.erp 75 [("L", ⟨10, 10, 0⟩)]).foldl min 100 := by
  exact ⟨by simp,
    subjectCanSkip_min AttendanceMode.erp [("L", ⟨10, 10, 0⟩)] 75 (by simp)⟩

/-- Claim C3, counterexample: over the non-empty processed list of one
subject whose percentage is exactly 100, mostAtRisk is null, although the
claim says null arises only on an empty input list (the loop compares
strictly against an initial lowest of 100, so a 100-percent subject never
becomes mostAtRisk). -/
theorem mostAtRisk_counterexample :
    processAllSubjects AttendanceMode.erp
        (some ⟨[("S1", ⟨"S1", "Course One", [("L", ⟨10, 10, 0⟩)]⟩)]⟩) 75 ≠ [] ∧
      (calculateAggregateStats
        (processAllSubjects AttendanceMode.erp
          (some ⟨[("S1", ⟨"S1", "Course One", [("L", ⟨10, 10, 0⟩)]⟩)]⟩) 75) 75).mostAtRisk =
        none := by
  constructor
  · simp [processAllSubjects]
  · norm_num [calculateAggregateStats, aggLoop, processAllSubjects, processOne,
      calculateSubjectSimulation, subjectSimLoop, subjectTotalsLoop,
      calculateSubjectPercentage, subjectPercentageLoop, classesCanSkip,
      classesNeededToReachThreshold, simulateMissNextClass,
      calculateComponentPercentage, getEffectiveAttended, getStatus,
      calculateDangerScore]

/-- Claim C3, amended: mostAtRisk is null exactly when no subject of the
input has a defined percentage strictly below 100 (in particular on the
empty list, but also on a non-empty list of all-100-percent subjects); and
whenever some subject has a percentage below 100, mostAtRisk is the FIRST
subject in input order whose percentage equals the minimum percentage of
the list, which settles ties by input order. -/
theorem mostAtRisk_spec (l : List ProcessedSubject) (t : ℚ) :
    ((calculateAggregateStats l t).mostAtRisk = none ↔
        ¬ ∃ s ∈ l, ∃ p, s.percentage = some p ∧ p < 100) ∧
      ((∃ s ∈ l, ∃ p, s.percentage = some p ∧ p < 100) →
        (calculateAggregateStats l t).mostAtRisk =
          l.find? (fun s => decide (s.percentage = some (minPctAux l 100)))) := by
  cases l with
  | nil =>
    constructor
    · simp [calculateAggregateStats]
    · rintro ⟨s, hs, _⟩
      exact absurd hs (List.not_mem_nil s)
  | cons x rest =>
    have hmost : (calculateAggregateStats (x :: rest) t).mostAtRisk =
        mostAux (x :: rest) 100 none := by
      simp only [calculateAggregateStats]
      exact aggLoop_most (x :: rest) (some 0) 0 0 0 100 none
    rw [hmost, mostAux_spec (x :: rest) 100 none]
    by_cases hcond : minPctAux (x :: rest) 100 < 100
    · rw [if_pos hcond]
      have hex : ∃ s ∈ x :: rest, s.percentage = some (minPctAux (x :: rest) 100) :=
        minPctAux_attained (x :: rest) 100 hcond
      have hsome : ((x :: rest).find?
          (fun s => decide (s.percentage = some (minPctAux (x :: rest) 100)))).isSome := by
        rw [List.find?_isSome]
        obtain ⟨s, hs, hp⟩ := hex
        exact ⟨s, hs, by simp [hp]⟩
      constructor
      · constructor
        · intro hnone
          rw [hnone] at hsome
          exact absurd hsome (by simp)
        · intro hno
          exact absurd ((minPctAux_lt_iff (x :: rest) 100).mp hcond) hno
      · intro _; rfl
    · rw [if_neg hcond]
      constructor
      · simp only [true_iff]
        intro hex
        exact absurd ((minPctAux_lt_iff (x :: rest) 100).mpr hex) hcond
      · intro hex
        exact absurd ((minPctAux_lt_iff (x :: rest) 100).mpr hex) hcond

/-- Claim C3, witness for the amended theorem over a singleton list whose
subject carries percentage 50. -/
theorem mostAtRisk_spec_witness :
    (∃ s ∈ [sampleLowSubject], ∃ p, s.percentage = some p ∧ p < 100) ∧
      (calculateAggregateStats [sampleLowSubject] 75).mostAtRisk =
        [sampleLowSubject].find?
          (fun s => decide (s.percentage = some (minPctAux [sampleLowSubject] 100))) := by
  have hEx : ∃ s ∈ [sampleLowSubject], ∃ p, s.percentage = some p ∧ p < 100 :=
    ⟨sampleLowSubject, by simp, 50, rfl, by norm_num⟩
  exact ⟨hEx, (mostAtRisk_spec [sampleLowSubject] 75).2 hEx⟩

theorem componentPercentage_full (mode : AttendanceMode) (a c f : ℚ)
    (h : c ≤ getEffectiveAttended mode a f) :
    calculateComponentPercentage mode a c f = 100 := by
  by_cases hc : c ≤ 0
  · simp [calculateComponentPercentage, hc]
  · have hc0 : (0 : ℚ) < c := lt_of_not_ge hc
    have h1 : (1 : ℚ) ≤ getEffectiveAttended mode a f / c := (one_le_div hc0).mpr h
    simp only [calculateComponentPercentage, if_neg hc]
    split_ifs <;> linarith

theorem componentPercentage_partial (mode : AttendanceMode) (a c f : ℚ)
    (heff : 0 ≤ getEffectiveAttended mode a f)
    (h : getEffectiveAttended mode a f < c) :
    calculateComponentPercentage mode a c f =
        getEffectiveAttended mode a f / c * 100 ∧
      calculateComponentPercentage mode a c f < 100 := by
  have hc0 : (0 : ℚ) < c := lt_of_le_of_lt heff h
  have hlt : getEffectiveAttended mode a f / c < 1 := (div_lt_one hc0).mpr h
  have hnn : (0 : ℚ) ≤ getEffectiveAttended mode a f / c := div_nonneg heff (le_of_lt hc0)
  simp only [calculateComponentPercentage, if_neg (not_le.mpr hc0)]
  split_ifs <;> constructor <;> linarith

/-- Claim C4, counterexample: at threshold 101 (the claim quantifies over
EVERY threshold) with a perfect record of 10 of 10, the function returns 0
although the current percentage, 100, is strictly below the threshold —
the claimed "0 iff percentage at or above threshold" fails for thresholds
above 100. -/
theorem classesNeeded_zero_iff_counterexample :
    classesNeededToReachThreshold AttendanceMode.erp 10 10 101 0 = some 0 ∧
      ¬ ((101 : ℚ) ≤ calculateComponentPercentage AttendanceMode.erp 10 10 0) := by
  constructor <;>
    norm_num [classesNeededToReachThreshold, calculateComponentPercentage,
      getEffectiveAttended]

/-- Claim C4, amended: restricted to thresholds at most 100 (the settings
contract range), classesNeededToReachThreshold returns 0 exactly when the
current percentage is at or above the threshold (equality included), and
the concrete case attended 5 of 10 at threshold 75 yields exactly 10. -/
theorem classesNeeded_zero_iff (mode : AttendanceMode) (a c t f : ℚ)
    (h1 : 0 ≤ a) (h2 : a ≤ c) (h3 : 0 ≤ f) (h4 : f ≤ c) (ht : t ≤ 100) :
    (classesNeededToReachThreshold mode a c t f = some 0 ↔
        t ≤ calculateComponentPercentage mode a c f) ∧
      classesNeededToReachThreshold AttendanceMode.erp 5 10 75 0 = some 10 := by
  refine ⟨?_, by
    norm_num [classesNeededToReachThreshold, calculateComponentPercentage,
      getEffectiveAttended]⟩
  by_cases hp : t ≤ calculateComponentPercentage mode a c f
  · have hres : classesNeededToReachThreshold mode a c t f = some 0 := by
      simp only [classesNeededToReachThreshold, if_pos hp]
    rw [hres]
    exact ⟨fun _ => hp, fun _ => rfl⟩
  · have hplt : calculateComponentPercentage mode a c f < t := lt_of_not_ge hp
    have hp0 : 0 ≤ calculateComponentPercentage mode a c f :=
      (componentPercentage_bounds mode a c f).1
    have ht0 : (0 : ℚ) < t := lt_of_le_of_lt hp0 hplt
    by_cases h100 : (100 : ℚ) ≤ t
    · have ht100 : t = 100 := le_antisymm ht h100
      have heff : getEffectiveAttended mode a f < c := by
        by_contra hge
        push_neg at hge
        have := componentPercentage_full mode a c f hge
        rw [this, ht100] at hplt
        exact lt_irrefl 100 hplt
      have hres : classesNeededToReachThreshold mode a c t f = none := by
        simp only [classesNeededToReachThreshold, if_neg hp, if_pos h100, if_pos heff]
      rw [hres]
      exact ⟨fun hcontra => Option.noConfusion hcontra, fun hcontra => absurd hcontra hp⟩
    · have hlt100 : t < 100 := lt_of_not_ge h100
      have heffn : 0 ≤ getEffectiveAttended mode a f :=
        effectiveAttended_nonneg mode a f h1 h3
      have hc0 : (0 : ℚ) < c := by
        by_contra hc
        push_neg at hc
        have hfull : calculateComponentPercentage mode a c f = 100 := by
          simp [calculateComponentPercentage, hc]
        rw [hfull] at hplt
        linarith
      have hraw : getEffectiveAttended mode a f / c * 100 < t := by
        by_contra hge
        push_neg at hge
        have hclamped : t ≤ calculateComponentPercentage mode a c f := by
          simp only [calculateComponentPercentage, if_neg (not_le.mpr hc0)]
          split_ifs <;> linarith
        exact absurd hclamped hp
      have hmul : getEffectiveAttended mode a f * 100 < t * c := by
        have h6 := mul_lt_mul_of_pos_right hraw hc0
        have h5 : getEffectiveAttended mode a f / c * 100 * c =
            getEffectiveAttended mode a f * 100 := by
          field_simp
        rw [h5] at h6
        linarith
      have hnum : 0 < t / 100 * c - getEffectiveAttended mode a f := by linarith
      have hden : 0 < 1 - t / 100 := by linarith
      have hratio : 0 < (t / 100 * c - getEffectiveAttended mode a f) / (1 - t / 100) :=
        div_pos hnum hden
      have hceil : 0 < ⌈(t / 100 * c - getEffectiveAttended mode a f) / (1 - t / 100)⌉ :=
        Int.ceil_pos.mpr hratio
      simp only [classesNeededToReachThreshold, if_neg hp, if_neg h100,
        if_neg (not_le.mpr hden)]
      constructor
      · intro hsome
        have hmax : max 0 ((⌈(t / 100 * c - getEffectiveAttended mode a f) /
            (1 - t / 100)⌉ : ℤ) : ℚ) = 0 := by injection hsome
        have hle0 : ((⌈(t / 100 * c - getEffectiveAttended mode a f) /
            (1 - t / 100)⌉ : ℤ) : ℚ) ≤ 0 := by
          rw [max_eq_left_iff] at hmax
          exact hmax
        have : (⌈(t / 100 * c - getEffectiveAttended mode a f) / (1 - t / 100)⌉ : ℤ) ≤ 0 := by
          exact_mod_cast hle0
        linarith
      · intro hcontra; exact absurd hcontra hp

/-- Claim C4, witness for the amended theorem at attended 5, conducted 10,
threshold 75. -/
theorem classesNeeded_zero_iff_witness :
    ((0 : ℚ) ≤ 5) ∧ ((5 : ℚ) ≤ 10) ∧ ((0 : ℚ) ≤ 0) ∧ ((0 : ℚ) ≤ 10) ∧
      ((75 : ℚ) ≤ 100) ∧
      classesNeededToReachThreshold AttendanceMode.erp 5 10 75 0 = some 10 :=
  ⟨by norm_num, by norm_num, le_refl 0, by norm_num, by norm_num,
    (classesNeeded_zero_iff AttendanceMode.erp 5 10 75 0 (by norm_num) (by norm_num)
      (le_refl 0) (by norm_num) (by norm_num)).2⟩

/-- Claim C5, counterexample: in carry-forward mode with attended 10 of
10 and tcbr 5 (all upstream invariants satisfied), the effective attended
count is 15, which does not equal conducted 10, yet
classesNeededToReachThreshold at threshold 100 returns 0 rather than the
claimed impossible sentinel (the code tests eff < conducted, not
equality). -/
theorem classesNeeded_at100_counterexample :
    getEffectiveAttended AttendanceMode.tcbrCorrected 10 5 = 15 ∧
      ((15 : ℚ) ≠ 10) ∧
      classesNeededToReachThreshold AttendanceMode.tcbrCorrected 10 10 100 5 = some 0 := by
  refine ⟨by norm_num [getEffectiveAttended], by norm_num, ?_⟩
  norm_num [classesNeededToReachThreshold, calculateComponentPercentage,
    getEffectiveAttended]

/-- Claim C5, amended: for non-negative inputs and any threshold of at
least 100, the function returns the impossible sentinel exactly when the
effective attended count is strictly below conducted, and 0 exactly when
the effective attended count is at least conducted; the concrete cases
(8 of 10, threshold 100) gives the sentinel and (10 of 10, threshold 100)
gives 0. -/
theorem classesNeeded_at100 (mode : AttendanceMode) (a c t f : ℚ)
    (h1 : 0 ≤ a) (h3 : 0 ≤ f) (ht : (100 : ℚ) ≤ t) :
    (classesNeededToReachThreshold mode a c t f = none ↔
        getEffectiveAttended mode a f < c) ∧
      (classesNeededToReachThreshold mode a c t f = some 0 ↔
        c ≤ getEffectiveAttended mode a f) ∧
      classesNeededToReachThreshold AttendanceMode.erp 8 10 100 0 = none ∧
      classesNeededToReachThreshold AttendanceMode.erp 10 10 100 0 = some 0 := by
  have hconc1 : classesNeededToReachThreshold AttendanceMode.erp 8 10 100 0 = none := by
    norm_num [classesNeededToReachThreshold, calculateComponentPercentage,
      getEffectiveAttended]
  have hconc2 : classesNeededToReachThreshold AttendanceMode.erp 10 10 100 0 = some 0 := by
    norm_num [classesNeededToReachThreshold, calculateComponentPercentage,
      getEffectiveAttended]
  have heffn : 0 ≤ getEffectiveAttended mode a f := effectiveAttended_nonneg mode a f h1 h3
  by_cases heffc : getEffectiveAttended mode a f < c
  · have hpart := componentPercentage_partial mode a c f heffn heffc
    have hplt : calculateComponentPercentage mode a c f < t := lt_of_lt_of_le hpart.2 ht
    have hres : classesNeededToReachThreshold mode a c t f = none := by
      simp only [classesNeededToReachThreshold, if_neg (not_le.mpr hplt), if_pos ht,
        if_pos heffc]
    rw [hres]
    refine ⟨⟨fun _ => heffc, fun _ => rfl⟩,
      ⟨fun h => Option.noConfusion h, fun h => absurd heffc (not_lt.mpr h)⟩,
      hconc1, hconc2⟩
  · push_neg at heffc
    have hres : classesNeededToReachThreshold mode a c t f = some 0 := by
      by_cases hpt : t ≤ calculateComponentPercentage mode a c f
      · simp only [classesNeededToReachThreshold, if_pos hpt]
      · simp only [classesNeededToReachThreshold, if_neg hpt, if_pos ht,
          if_neg (not_lt.mpr heffc)]
    rw [hres]
    refine ⟨⟨fun h => Option.noConfusion h, fun h => absurd h (not_lt.mpr heffc)⟩,
      ⟨fun _ => heffc, fun _ => rfl⟩, hconc1, hconc2⟩

/-- Claim C5, witness for the amended theorem at attended 8, conducted 10,
threshold 100. -/
theorem classesNeeded_at100_witness :
    ((0 : ℚ) ≤ 8) ∧ ((0 : ℚ) ≤ 0) ∧ ((100 : ℚ) ≤ 100) ∧
      classesNeededToReachThreshold AttendanceMode.erp 8 10 100 0 = none :=
  ⟨by norm_num, le_refl 0, le_refl 100,
    (classesNeeded_at100 AttendanceMode.erp 8 10 100 0 (by norm_num) (le_refl 0)
      (le_refl 100)).2.2.1⟩

/-- Claim C6 (confirmed): classesCanSkip returns 0 below threshold,
returns the capped 100 for threshold at most 0, and otherwise returns the
floor of (effectiveAttended - threshold/100 * conducted) / (threshold/100)
floored at 0 and capped at 100; concretely, 40 of 50 at threshold 75
yields exactly 3. -/
theorem classesCanSkip_spec (mode : AttendanceMode) (a c t f : ℚ)
    (ha : 0 ≤ a) (hc : 0 ≤ c) (hf : 0 ≤ f) :
    (calculateComponentPercentage mode a c f < t → classesCanSkip mode a c t f = 0) ∧
      (t ≤ 0 → classesCanSkip mode a c t f = 100) ∧
      (0 < t → t ≤ calculateComponentPercentage mode a c f →
        classesCanSkip mode a c t f =
          min 100 (max 0 ((⌊(getEffectiveAttended mode a f - t / 100 * c) / (t / 100)⌋ : ℤ) : ℚ))) ∧
      classesCanSkip AttendanceMode.erp 40 50 75 0 = 3 := by
  have hp0 : 0 ≤ calculateComponentPercentage mode a c f :=
    (componentPercentage_bounds mode a c f).1
  refine ⟨?_, ?_, ?_, by
    norm_num [classesCanSkip, calculateComponentPercentage, getEffectiveAttended]⟩
  · intro hplt
    simp only [classesCanSkip, if_pos hplt]
  · intro ht0
    have hnlt : ¬ calculateComponentPercentage mode a c f < t :=
      not_lt.mpr (le_trans ht0 hp0)
    simp only [classesCanSkip, if_neg hnlt, if_pos ht0]
  · intro ht0 hge
    have hnlt : ¬ calculateComponentPercentage mode a c f < t := not_lt.mpr hge
    have hnt0 : ¬ t ≤ 0 := not_le.mpr ht0
    have hdpos : (0 : ℚ) < t / 100 := by linarith
    have hnd : ¬ t / 100 ≤ 0 := not_le.mpr hdpos
    simp only [classesCanSkip, if_neg hnlt, if_neg hnt0, if_neg hnd]
    by_cases hgt : ((⌊(getEffectiveAttended mode a f - t / 100 * c) / (t / 100)⌋ : ℤ) : ℚ) > 100
    · rw [if_pos hgt, max_eq_right (by linarith), min_eq_left (by linarith)]
    · rw [if_neg hgt, min_eq_right (max_le (by norm_num) (not_lt.mp hgt))]

/-- Claim C6, witness: the theorem applied at the concrete input 40 of 50
at threshold 75, plus the below-threshold clause exercised at 1 of 10. -/
theorem classesCanSkip_spec_witness :
    ((0 : ℚ) ≤ 40) ∧ ((0 : ℚ) ≤ 50) ∧ ((0 : ℚ) ≤ 0) ∧
      classesCanSkip AttendanceMode.erp 40 50 75 0 = 3 ∧
      (calculateComponentPercentage AttendanceMode.erp 1 10 0 < 75 ∧
        classesCanSkip AttendanceMode.erp 1 10 75 0 = 0) := by
  have h75 : calculateComponentPercentage AttendanceMode.erp 1 10 0 < 75 := by
    norm_num [calculateComponentPercentage, getEffectiveAttended]
  exact ⟨by norm_num, by norm_num, le_refl 0,
    (classesCanSkip_spec AttendanceMode.erp 40 50 75 0 (by norm_num) (by norm_num)
      (le_refl 0)).2.2.2,
    h75,
    (classesCanSkip_spec AttendanceMode.erp 1 10 75 0 (by norm_num) (by norm_num)
      (le_refl 0)).1 h75⟩

/-- Claim C8 (confirmed): any below-threshold percentage scores at least
50, strictly outranks every at-or-above-threshold percentage, and among
below-threshold percentages the score grows strictly with the deficit. -/
theorem dangerScore_ordering (t p1 p2 : ℚ) (h1 : p1 < t) (h2 : t ≤ p2) :
    50 ≤ calculateDangerScore p1 t ∧
      calculateDangerScore p2 t < calculateDangerScore p1 t ∧
      (∀ q1 q2 : ℚ, q1 < t → q2 < t → q1 < q2 →
        calculateDangerScore q2 t < calculateDangerScore q1 t) := by
  have hs1 : calculateDangerScore p1 t = 50 + (t - p1) := by
    simp [calculateDangerScore, ge_iff_le, not_le.mpr h1]
  have hs2 : calculateDangerScore p2 t = max 0 (t + 10 - p2) := by
    simp [calculateDangerScore, ge_iff_le, h2]
  refine ⟨by rw [hs1]; linarith, ?_, ?_⟩
  · rw [hs1, hs2]
    have hb : max 0 (t + 10 - p2) ≤ 10 := max_le (by norm_num) (by linarith)
    linarith
  · intro q1 q2 hq1 hq2 hlt
    have e1 : calculateDangerScore q1 t = 50 + (t - q1) := by
      simp [calculateDangerScore, ge_iff_le, not_le.mpr hq1]
    have e2 : calculateDangerScore q2 t = 50 + (t - q2) := by
      simp [calculateDangerScore, ge_iff_le, not_le.mpr hq2]
    rw [e1, e2]
    linarith

/-- Claim C8, witness at threshold 75 with percentages 70 (below) and 80
(above). -/
theorem dangerScore_ordering_witness :
    ((70 : ℚ) < 75) ∧ ((75 : ℚ) ≤ 80) ∧
      50 ≤ calculateDangerScore 70 75 ∧
      calculateDangerScore 80 75 < calculateDangerScore 70 75 :=
  ⟨by norm_num, by norm_num,
    (dangerScore_ordering 75 70 80 (by norm_num) (by norm_num)).1,
    (dangerScore_ordering 75 70 80 (by norm_num) (by norm_num)).2.1⟩

/-- Claim C9 (confirmed): with every carry-forward value 0, the ERP mode
and the TCBR-corrected mode agree exactly on every engine calculation:
effective attended, component percentage, classes needed, classes
skippable, the miss-next-class simulation, subject percentage, the full
subject simulation, and batch processing. -/
theorem mode_equivalence (rd : RawData) (t : ℚ)
    (h : ∀ s ∈ rd.subjects, ∀ x ∈ s.2.components, x.2.tcbr = 0) :
    (∀ a : ℚ, getEffectiveAttended AttendanceMode.erp a 0 =
        getEffectiveAttended AttendanceMode.tcbrCorrected a 0) ∧
      (∀ a c : ℚ, calculateComponentPercentage AttendanceMode.erp a c 0 =
        calculateComponentPercentage AttendanceMode.tcbrCorrected a c 0) ∧
      (∀ a c th : ℚ, classesNeededToReachThreshold AttendanceMode.erp a c th 0 =
        classesNeededToReachThreshold AttendanceMode.tcbrCorrected a c th 0) ∧
      (∀ a c th : ℚ, classesCanSkip AttendanceMode.erp a c th 0 =
        classesCanSkip AttendanceMode.tcbrCorrected a c th 0) ∧
      (∀ a c th : ℚ, simulateMissNextClass AttendanceMode.erp a c th 0 =
        simulateMissNextClass AttendanceMode.tcbrCorrected a c th 0) ∧
      (∀ comps : List (String × ComponentRecord), (∀ x ∈ comps, x.2.tcbr = 0) →
        calculateSubjectPercentage AttendanceMode.erp comps =
          calculateSubjectPercentage AttendanceMode.tcbrCorrected comps) ∧
      (∀ comps : List (String × ComponentRecord), (∀ x ∈ comps, x.2.tcbr = 0) →
        calculateSubjectSimulation AttendanceMode.erp comps t =
          calculateSubjectSimulation AttendanceMode.tcbrCorrected comps t) ∧
      processAllSubjects AttendanceMode.erp (some rd) t =
        processAllSubjects AttendanceMode.tcbrCorrected (some rd) t :=
  ⟨fun a => (effectiveAttended_zero AttendanceMode.tcbrCorrected a).symm,
    fun a c => componentPercentage_mode a c,
    fun a c th => classesNeeded_mode a c th,
    fun a c th => canSkip_mode a c th,
    fun a c th => simulateMiss_mode a c th,
    fun comps hcz => calculateSubjectPercentage_mode comps hcz,
    fun comps hcz => calculateSubjectSimulation_mode t comps hcz,
    processAllSubjects_mode t rd h⟩

/-- Claim C9, witness: the batch-processing equality at a concrete data
set whose single component has tcbr 0. -/
theorem mode_equivalence_witness :
    processAllSubjects AttendanceMode.erp
        (some ⟨[("S1", ⟨"S1", "Course One", [("L", ⟨5, 10, 0⟩)]⟩)]⟩) 75 =
      processAllSubjects AttendanceMode.tcbrCorrected
        (some ⟨[("S1", ⟨"S1", "Course One", [("L", ⟨5, 10, 0⟩)]⟩)]⟩) 75 :=
  (mode_equivalence ⟨[("S1", ⟨"S1", "Course One", [("L", ⟨5, 10, 0⟩)]⟩)]⟩ 75
    (by
      intro s hs x hx
      rcases List.mem_singleton.mp hs with rfl
      rcases List.mem_singleton.mp hx with rfl
      rfl)).2.2.2.2.2.2.2

/-- Claim C10 (confirmed): over the store model of JS arrays, sortSubjects
returns a freshly allocated reference (the previous store length, never a
pre-existing index), grows the store by exactly one array, and leaves
every pre-existing array — in particular the input array — unchanged,
for every sort key including unknown ones. -/
theorem sortSubjects_frame (store : Store) (r : ℕ) (sortBy : String)
    (h : r < store.length) :
    (sortSubjects store r sortBy).2 = store.length ∧
      (sortSubjects store r sortBy).1.length = store.length + 1 ∧
      (∀ i, i < store.length →
        (sortSubjects store r sortBy).1.getD i [] = store.getD i []) ∧
      (sortSubjects store r sortBy).1.getD r [] = store.getD r [] := by
  have hkeep : ∀ i, i < store.length →
      (sortSubjects store r sortBy).1.getD i [] = store.getD i [] := by
    intro i hi
    simp only [sortSubjects]
    rw [List.getD_eq_getElem?_getD, List.getElem?_set_ne (Nat.ne_of_gt hi),
      List.getElem?_append_left hi, ← List.getD_eq_getElem?_getD]
  refine ⟨rfl, ?_, hkeep, hkeep r h⟩
  simp only [sortSubjects]
  rw [List.length_set, List.length_append]
  rfl

/-- Claim C10, witness over a one-array store, with the default danger
key. -/
theorem sortSubjects_frame_witness :
    (0 < ([[]] : Store).length) ∧
      (sortSubjects [[]] 0 "danger").1.getD 0 [] = ([[]] : Store).getD 0 [] :=
  ⟨by norm_num,
    (sortSubjects_frame [[]] 0 "danger" (by norm_num)).2.2.2⟩

theorem subjectSimLoop_wp_bounds (mode : AttendanceMode) (t : ℚ) :
    ∀ (comps : List (String × ComponentRecord))
      (cd : List (String × ComponentData)) (wc : Option String) (wp : ℚ)
      (tot ms : Option ℚ),
      0 ≤ wp → wp ≤ 100 →
      0 ≤ (subjectSimLoop mode t comps cd wc wp tot ms).2.2.1 ∧
        (subjectSimLoop mode t comps cd wc wp tot ms).2.2.1 ≤ 100 := by
  intro comps
  induction comps with
  | nil => intro cd wc wp tot ms h0 h1; exact ⟨h0, h1⟩
  | cons x rest ih =>
    intro cd wc wp tot ms h0 h1
    obtain ⟨ty, comp⟩ := x
    have hb := componentPercentage_bounds mode comp.attended comp.conducted comp.tcbr
    simp only [subjectSimLoop]
    by_cases hlt :
        calculateComponentPercentage mode comp.attended comp.conducted comp.tcbr < wp
    · simp only [if_pos hlt]
      exact ih _ _ _ _ _ hb.1 hb.2
    · simp only [if_neg hlt]
      exact ih _ _ _ _ _ h0 h1

theorem subjectSimLoop_tot_nonneg (mode : AttendanceMode) (t : ℚ) :
    ∀ (comps : List (String × ComponentRecord))
      (cd : List (String × ComponentData)) (wc : Option String) (wp : ℚ)
      (tot ms : Option ℚ),
      (∀ s, tot = some s → 0 ≤ s) →
      ∀ s, (subjectSimLoop mode t comps cd wc wp tot ms).2.2.2.1 = some s → 0 ≤ s := by
  intro comps
  induction comps with
  | nil => intro cd wc wp tot ms htot s hs; exact htot s hs
  | cons x rest ih =>
    intro cd wc wp tot ms htot
    obtain ⟨ty, comp⟩ := x
    simp only [subjectSimLoop]
    apply ih
    intro s hs
    cases hn : classesNeededToReachThreshold mode comp.attended comp.conducted t comp.tcbr with
    | none => simp only [hn] at hs; exact Option.noConfusion hs
    | some q =>
      simp only [hn] at hs
      by_cases hq : q > 0
      · rw [if_pos hq] at hs
        cases htot0 : tot with
        | none => simp only [htot0] at hs; exact Option.noConfusion hs
        | some s0 =>
          simp only [htot0] at hs
          injection hs with hs
          have h0 := htot s0 htot0
          rw [← hs]
          linarith
      · rw [if_neg hq] at hs
        exact htot s hs

theorem subjectTotalsLoop_nonneg (mode : AttendanceMode) :
    ∀ (comps : List (String × ComponentRecord)),
      (∀ x ∈ comps, 0 ≤ x.2.attended ∧ x.2.attended ≤ x.2.conducted ∧ 0 ≤ x.2.tcbr) →
      0 ≤ (subjectTotalsLoop mode comps).1 ∧
        0 ≤ (subjectTotalsLoop mode comps).2.1 ∧
        0 ≤ (subjectTotalsLoop mode comps).2.2 := by
  intro comps
  induction comps with
  | nil => intro _; norm_num [subjectTotalsLoop]
  | cons x rest ih =>
    intro h
    obtain ⟨ty, comp⟩ := x
    have hx := h (ty, comp) (List.mem_cons_self _ _)
    have hrest := ih (fun y hy => h y (List.mem_cons_of_mem _ hy))
    have heff := effectiveAttended_nonneg mode comp.attended comp.tcbr hx.1 hx.2.2
    simp only [subjectTotalsLoop]
    refine ⟨by linarith [hrest.1, hx.1, hx.2.1], by linarith [hrest.2.1, hx.1],
      by linarith [hrest.2.2]⟩

theorem minSkipAux_nonneg (mode : AttendanceMode) (t : ℚ) :
    ∀ (comps : List (String × ComponentRecord)) (ms : Option ℚ),
      (∀ m, ms = some m → 0 ≤ m) →
      ∀ m, minSkipAux mode t comps ms = some m → 0 ≤ m := by
  intro comps
  induction comps with
  | nil => intro ms hms m hm; exact hms m hm
  | cons x rest ih =>
    intro ms hms
    obtain ⟨ty, comp⟩ := x
    have hskip := classesCanSkip_nonneg mode comp.attended comp.conducted t comp.tcbr
    simp only [minSkipAux]
    apply ih
    intro m hm
    cases hms0 : ms with
    | none =>
      simp only [hms0] at hm
      injection hm with hm
      rw [← hm]
      exact hskip
    | some m0 =>
      simp only [hms0] at hm
      by_cases hlt : classesCanSkip mode comp.attended comp.conducted t comp.tcbr < m0
      · rw [if_pos hlt] at hm
        injection hm with hm
        rw [← hm]
        exact hskip
      · rw [if_neg hlt] at hm
        injection hm with hm
        rw [← hm]
        exact hms m0 hms0

/-- Claim C7, counterexample: a subject with an EMPTY component mapping
satisfies the numeric hypotheses vacuously, yet its processed record has
no percentage key, so calculateAggregateStats sums an undefined value and
the aggregate mean is JS NaN (modelled none) — not a value in [0, 100]. -/
theorem processing_invariants_counterexample :
    processAllSubjects AttendanceMode.erp
        (some ⟨[("S1", ⟨"S1", "Course One", []⟩)]⟩) 75 ≠ [] ∧
      (calculateAggregateStats
        (processAllSubjects AttendanceMode.erp
          (some ⟨[("S1", ⟨"S1", "Course One", []⟩)]⟩) 75) 75).averageAttendance = none := by
  constructor
  · simp [processAllSubjects]
  · norm_num [calculateAggregateStats, aggLoop, processAllSubjects, processOne,
      calculateSubjectSimulation, subjectTotalsLoop, getStatus]

/-- Claim C7, amended: RESTRICTED to raw data in which every subject has
at least one component, and with the claimed integer sanity bounds on each
component, no derived quantity of any processed subject is negative and
every percentage is in [0, 100]: the subject percentage and weakest
percentage are defined and in [0, 100], the danger score, total classes
needed, canSkip, component totals (conducted, attended, effective
attended) and totalAbsent are all non-negative, every componentData entry
is sane (percentage and simulation percentages in [0, 100], finite
classesNeeded, canSkip, effectiveAttended and percentageDrop all
non-negative), and the aggregate mean is a defined value in [0, 100]. -/
theorem processing_invariants (mode : AttendanceMode) (rd : RawData) (t : ℚ)
    (hne : ∀ s ∈ rd.subjects, s.2.components ≠ [])
    (hwf : ∀ s ∈ rd.subjects, ∀ x ∈ s.2.components,
      0 ≤ x.2.attended ∧ x.2.attended ≤ x.2.conducted ∧
        0 ≤ x.2.tcbr ∧ x.2.tcbr ≤ x.2.conducted) :
    (∀ p ∈ processAllSubjects mode (some rd) t,
      (∃ q, p.percentage = some q ∧ 0 ≤ q ∧ q ≤ 100) ∧
        (∃ d, p.dangerScore = some d ∧ 0 ≤ d) ∧
        (∃ w, p.weakestPercentage = some w ∧ 0 ≤ w ∧ w ≤ 100) ∧
        (∃ n, p.totalClassesNeeded = some n ∧ 0 ≤ n) ∧
        0 ≤ p.canSkip ∧
        0 ≤ p.totalConducted ∧
        0 ≤ p.totalAttended ∧
        0 ≤ p.totalEffectiveAttended ∧
        0 ≤ p.totalAbsent ∧
        (∀ e ∈ p.componentData, componentDataSane e.2)) ∧
      (∃ q, (calculateAggregateStats
          (processAllSubjects mode (some rd) t) t).averageAttendance = some q ∧
        0 ≤ q ∧ q ≤ 100) := by
  have hpart1 : ∀ p ∈ processAllSubjects mode (some rd) t,
      (∃ q, p.percentage = some q ∧ 0 ≤ q ∧ q ≤ 100) ∧
        (∃ d, p.dangerScore = some d ∧ 0 ≤ d) ∧
        (∃ w, p.weakestPercentage = some w ∧ 0 ≤ w ∧ w ≤ 100) ∧
        (∃ n, p.totalClassesNeeded = some n ∧ 0 ≤ n) ∧
        0 ≤ p.canSkip ∧
        0 ≤ p.totalConducted ∧
        0 ≤ p.totalAttended ∧
        0 ≤ p.totalEffectiveAttended ∧
        0 ≤ p.totalAbsent ∧
        (∀ e ∈ p.componentData, componentDataSane e.2) := by
    intro p hp
    simp only [processAllSubjects, List.mem_map] at hp
    obtain ⟨s, hs, rfl⟩ := hp
    obtain ⟨x, rest, hc⟩ := List.exists_cons_of_ne_nil (hne s hs)
    have hfields := processOne_fields mode t s.2 x rest hc
    have htotals := subjectTotalsLoop_nonneg mode s.2.components
      (fun y hy => ⟨((hwf s hs) y hy).1, ((hwf s hs) y hy).2.1,
        ((hwf s hs) y hy).2.2.1⟩)
    refine ⟨?_, ?_, ?_, ?_, ?_, ?_, ?_, ?_, ?_, ?_⟩
    · rw [hfields.1]
      have hb := subjectPercentage_bounds mode s.2.components
      exact ⟨calculateSubjectPercentage mode s.2.components, rfl, hb.1, hb.2⟩
    · rw [hfields.2.2.2.2.1]
      exact ⟨calculateDangerScore (calculateSubjectPercentage mode s.2.components) t,
        rfl, dangerScore_nonneg _ _⟩
    · rw [hfields.2.2.2.2.2.1]
      have hwp := subjectSimLoop_wp_bounds mode t s.2.components [] none 100
        (some 0) none (by norm_num) (by norm_num)
      exact ⟨_, rfl, hwp.1, hwp.2⟩
    · rw [hfields.2.2.2.2.2.2.1]
      refine ⟨_, rfl, ?_⟩
      cases htot : (subjectSimLoop mode t s.2.components [] none 100
          (some 0) none).2.2.2.1 with
      | none => norm_num
      | some q =>
        have hq0 := subjectSimLoop_tot_nonneg mode t s.2.components [] none 100
          (some 0) none
          (fun s0 hs0 => by injection hs0 with hs0; rw [← hs0]) q htot
        exact le_min hq0 (by norm_num)
    · rw [hfields.2.2.2.1]
      cases hms : (subjectSimLoop mode t s.2.components [] none 100
          (some 0) none).2.2.2.2 with
      | none => norm_num
      | some q =>
        rw [subjectSimLoop_minSkip] at hms
        have hq0 := minSkipAux_nonneg mode t s.2.components none
          (fun m hm => Option.noConfusion hm) q hms
        exact le_min hq0 (by norm_num)
    · rw [hfields.2.2.2.2.2.2.2.1]
      exact htotals.1
    · rw [hfields.2.2.2.2.2.2.2.2.1]
      exact htotals.2.1
    · rw [hfields.2.2.2.2.2.2.2.2.2]
      exact htotals.2.2
    · rw [hfields.2.2.1]
      have habs := subjectTotalsLoop_absent_nonneg mode s.2.components
        (fun y hy => ((hwf s hs) y hy).2.1)
      linarith
    · rw [hfields.2.1]
      exact subjectSimLoop_componentData_sane mode t s.2.components [] none 100
        (some 0) none (fun e he => absurd he (List.not_mem_nil e))
        (fun y hy => ⟨((hwf s hs) y hy).1, ((hwf s hs) y hy).2.2.1⟩)
  refine ⟨hpart1, ?_⟩
  cases hll : processAllSubjects mode (some rd) t with
  | nil =>
    exact ⟨0, rfl, le_refl 0, by norm_num⟩
  | cons y ys =>
    have hpercent : ∀ s ∈ y :: ys, ∃ q, s.percentage = some q ∧ 0 ≤ q ∧ q ≤ 100 := by
      intro s hsm
      exact (hpart1 s (hll ▸ hsm)).1
    simp only [calculateAggregateStats]
    obtain ⟨T', hT', hlo, hub⟩ := aggLoop_total_bounds (y :: ys) 0 0 0 0 100 none hpercent
    rw [hT']
    have hn1 : (1 : ℚ) ≤ ((y :: ys).length : ℚ) := by
      have : 1 ≤ (y :: ys).length := by simp
      exact_mod_cast this
    have hnpos : (0 : ℚ) < ((y :: ys).length : ℚ) := by linarith
    refine ⟨T' / ((y :: ys).length : ℚ), rfl, ?_, ?_⟩
    · exact div_nonneg (by linarith) (le_of_lt hnpos)
    · rw [div_le_iff hnpos]
      linarith

/-- Claim C7, witness: the aggregate-mean clause of the amended theorem at
a concrete one-subject data set with 5 of 10 attended. -/
theorem processing_invariants_witness :
    ∃ q, (calculateAggregateStats
        (processAllSubjects AttendanceMode.erp
          (some ⟨[("S1", ⟨"S1", "Course One", [("L", ⟨5, 10, 0⟩)]⟩)]⟩) 75) 75).averageAttendance =
      some q ∧ 0 ≤ q ∧ q ≤ 100 :=
  (processing_invariants AttendanceMode.erp
    ⟨[("S1", ⟨"S1", "Course One", [("L", ⟨5, 10, 0⟩)]⟩)]⟩ 75
    (by
      intro s hs
      rcases List.mem_singleton.mp hs with rfl
      simp)
    (by
      intro s hs x hx
      rcases List.mem_singleton.mp hs with rfl
      rcases List.mem_singleton.mp hx with rfl
      norm_num)).2
